import Mathlib

/-!
Shallow embedding of `test_logger` (src/test_logger/src/main.rs) and proofs
about its specification.

Strings are modelled as `List Char` (Unicode scalar values, exactly Rust's
`char`).  Byte-indexed slicing of a `&str`, which can panic on a non-boundary
index, is modelled by `rustByteSlice`, which returns `none` where Rust panics.
`parse_input` therefore returns an `Option`: `none` models a panic.
-/

namespace TestLogger

/-- Models Rust `char::is_whitespace`: the Unicode `White_Space` property.
The member code points are exactly those of Unicode's `PropList.txt`
(U+0009..U+000D, U+0020, U+0085, U+00A0, U+1680, U+2000..U+200A, U+2028,
U+2029, U+202F, U+205F, U+3000). -/
def isRustWhitespace (c : Char) : Bool :=
  c.toNat = 0x9 || c.toNat = 0xA || c.toNat = 0xB || c.toNat = 0xC || c.toNat = 0xD ||
  c.toNat = 0x20 || c.toNat = 0x85 || c.toNat = 0xA0 || c.toNat = 0x1680 ||
  (0x2000 ≤ c.toNat && c.toNat ≤ 0x200A) || c.toNat = 0x2028 || c.toNat = 0x2029 ||
  c.toNat = 0x202F || c.toNat = 0x205F || c.toNat = 0x3000

/-- Models Rust `str::trim`: remove leading and trailing whitespace. -/
def rustTrim (s : List Char) : List Char :=
  List.rdropWhile isRustWhitespace (List.dropWhile isRustWhitespace s)

/-- `'A' ≤ c ≤ 'Z'`, i.e. Rust `char::is_ascii_uppercase`. -/
def isAsciiUppercase (c : Char) : Bool :=
  65 ≤ c.toNat && c.toNat ≤ 90

/-- ASCII lower-casing of one character (identity outside `A`..`Z`),
Rust `u8::to_ascii_lowercase` / the per-byte step of `eq_ignore_ascii_case`. -/
def asciiToLower (c : Char) : Char :=
  if isAsciiUppercase c then Char.ofNat (c.toNat + 32) else c

/-- U+212A KELVIN SIGN, the only character outside `A`..`Z` whose Unicode
lowercase mapping is a single ASCII character (`k`). -/
def kelvinSign : Char := Char.ofNat 0x212A

/-- U+0130 LATIN CAPITAL LETTER I WITH DOT ABOVE, the only character whose
full Unicode lowercase mapping has more than one character. -/
def capitalIDot : Char := Char.ofNat 0x130

/-- U+0307 COMBINING DOT ABOVE, the second character of U+0130's lowercase
mapping. -/
def combiningDot : Char := Char.ofNat 0x307

/-- Models the Unicode lowercase mapping used by Rust `char/str::to_lowercase`,
restricted to the mappings observable through an ASCII prefix comparison:
`A`..`Z` map to `a`..`z`, U+212A maps to `k`, and U+0130 maps to
`i` + U+0307 (the only one-to-many lowercase mapping in `SpecialCasing.txt`).
Every other character is kept unchanged; this is sound for the theorems below
because every remaining real mapping sends a non-ASCII character to non-ASCII
characters, so membership of ASCII characters in the output is unaffected. -/
def rustCharLower (c : Char) : List Char :=
  if isAsciiUppercase c then [Char.ofNat (c.toNat + 32)]
  else if c = kelvinSign then ['k']
  else if c = capitalIDot then ['i', combiningDot]
  else [c]

/-- Models Rust `str::to_lowercase` (concatenation of per-character lowercase
mappings). -/
def rustToLowercase : List Char → List Char
  | [] => []
  | c :: s => rustCharLower c ++ rustToLowercase s

/-- `startsWithL l p` models Rust `str::starts_with`: `p` is a prefix of `l`.
Both sides are character lists; for the ASCII patterns used by the program
this coincides with the byte-level comparison. -/
def startsWithL (l p : List Char) : Bool :=
  match p, l with
  | [], _ => true
  | _ :: _, [] => false
  | a :: p, c :: l => c == a && startsWithL l p

/-- Models Rust byte slicing `s[n..]` of a `&str`: returns the suffix starting
at byte offset `n`, or `none` (Rust: panic) when `n` is not on a character
boundary or exceeds the byte length. -/
def rustByteSlice : List Char → Nat → Option (List Char)
  | s, 0 => some s
  | [], _ + 1 => none
  | c :: s, n + 1 =>
    if c.utf8Size ≤ n + 1 then rustByteSlice s (n + 1 - c.utf8Size) else none

/-- Embedding of `parse_input` (main.rs lines 28..48).  The result is
`(entry_type, tag, description)`; `none` models the panic that Rust byte
slicing would raise on a non-boundary index. -/
def parse_input (input : List Char) : Option (List Char × List Char × List Char) :=
  let trimmed := rustTrim input
  if startsWithL (rustToLowercase trimmed) ("bug:".toList) then
    (rustByteSlice trimmed 4).map fun r => ("OBSERVATION".toList, "BUG".toList, rustTrim r)
  else if startsWithL (rustToLowercase trimmed) ("warn:".toList) then
    (rustByteSlice trimmed 5).map fun r => ("OBSERVATION".toList, "WARN".toList, rustTrim r)
  else if startsWithL (rustToLowercase trimmed) ("good:".toList) then
    (rustByteSlice trimmed 5).map fun r => ("OBSERVATION".toList, "GOOD".toList, rustTrim r)
  else if startsWithL (rustToLowercase trimmed) ("pass:".toList) then
    (rustByteSlice trimmed 5).map fun r => ("OBSERVATION".toList, "PASS".toList, rustTrim r)
  else if startsWithL (rustToLowercase trimmed) ("fail:".toList) then
    (rustByteSlice trimmed 5).map fun r => ("OBSERVATION".toList, "FAIL".toList, rustTrim r)
  else if startsWithL (rustToLowercase trimmed) ("reload:".toList) then
    (rustByteSlice trimmed 7).map fun r => ("RELOAD".toList, "VERSION".toList, rustTrim r)
  else if startsWithL (rustToLowercase trimmed) ("testcase:".toList) then
    (rustByteSlice trimmed 9).map fun r => ("TEST CASE".toList, "NAME".toList, rustTrim r)
  else
    some ("OBSERVATION".toList, "NOTE".toList, trimmed)

/-- The seven recognized prefixes checked by `parse_input`, in source order. -/
def recognizedPrefixes : List (List Char) :=
  ["bug:".toList, "warn:".toList, "good:".toList, "pass:".toList,
   "fail:".toList, "reload:".toList, "testcase:".toList]

/-- The classification table of §4.1: prefix, entry kind, tag. -/
def classificationTable : List (List Char × List Char × List Char) :=
  [("bug:".toList, "OBSERVATION".toList, "BUG".toList),
   ("warn:".toList, "OBSERVATION".toList, "WARN".toList),
   ("good:".toList, "OBSERVATION".toList, "GOOD".toList),
   ("pass:".toList, "OBSERVATION".toList, "PASS".toList),
   ("fail:".toList, "OBSERVATION".toList, "FAIL".toList),
   ("reload:".toList, "RELOAD".toList, "VERSION".toList),
   ("testcase:".toList, "TEST CASE".toList, "NAME".toList)]

/-- Embedding of the `LogEntry` struct (main.rs lines 20..26). -/
structure LogEntry where
  local_time : List Char
  utc_time : List Char
  entry_type : List Char
  description : List Char
  tag : List Char
deriving DecidableEq

/-- The mutable session state of `main`: the `logs` vector and the
`tag_counts` map.  The map is modelled as an association list in insertion
order; its iteration order in the Rust program (a `std::collections::HashMap`)
is arbitrary, which the renderer lemmas account for by taking the iteration
sequence as a parameter. -/
structure SessionState where
  logs : List LogEntry
  tag_counts : List (List Char × Nat)
deriving DecidableEq

/-- Models `*tag_counts.entry(tag).or_insert(0) += 1`: increment the count of
`tag`, inserting it at 0 first when absent.  The counts are `u32` in the
source, so the increment is taken modulo `2 ^ 32`: one more increment of a
tag whose stored count is `2 ^ 32 - 1` wraps it to `0` (release-mode Rust
semantics; debug mode would panic there instead, so in neither mode does the
count keep growing past `2 ^ 32 - 1`). -/
def bumpTag : List (List Char × Nat) → List Char → List (List Char × Nat)
  | [], t => [(t, (0 + 1) % 2 ^ 32)]
  | (k, v) :: m, t =>
    if k = t then (k, (v + 1) % 2 ^ 32) :: m else (k, v) :: bumpTag m t

/-- The `TEST START` lifecycle entry pushed before the loop
(main.rs lines 249..255); `ts` is the (local, utc) timestamp pair. -/
def startEntry (ts : List Char × List Char) : LogEntry :=
  ⟨ts.1, ts.2, "TEST START".toList, "Test started".toList, "NOTE".toList⟩

/-- The `TEST END` lifecycle entry pushed after the loop
(main.rs lines 266..272). -/
def endEntry (ts : List Char × List Char) : LogEntry :=
  ⟨ts.1, ts.2, "TEST END".toList, "Test session ended.".toList, "NOTE".toList⟩

/-- Session opening: empty tag counts and the start marker (the `open`
operation of §4.2 as realized by `main`). -/
def openSession (ts : List Char × List Char) : SessionState :=
  ⟨[startEntry ts], []⟩

/-- One recorded entry (the body of `main`'s loop after classification,
lines 250..260 of the loop): push a `LogEntry` and bump its tag count. -/
def recordEntry (s : SessionState) (ts : List Char × List Char)
    (kind tag desc : List Char) : SessionState :=
  ⟨s.logs ++ [⟨ts.1, ts.2, kind, desc, tag⟩], bumpTag s.tag_counts tag⟩

/-- Session closing: push the `TEST END` marker; tag counts are untouched
(the `close` operation of §4.2 as realized by `main`). -/
def closeSession (s : SessionState) (ts : List Char × List Char) : SessionState :=
  ⟨s.logs ++ [endEntry ts], s.tag_counts⟩

/-- Models Rust `str::eq_ignore_ascii_case`. -/
def eqIgnoreAsciiCase (a b : List Char) : Bool :=
  a.map asciiToLower == b.map asciiToLower

/-- Embedding of `main`'s interactive loop (main.rs lines 237..262) over a
finite input script.  Each element pairs the raw line with the (local, utc)
timestamp pair the clock would return for it.  `none` models an aborted
session: the line source running dry before `end` (readline error path), or a
classifier panic. -/
def sessionLoop : SessionState → List (List Char × List Char × List Char) → Option SessionState
  | _, [] => none
  | s, (line, ts) :: rest =>
    let behavior := rustTrim line
    if behavior = [] then sessionLoop s rest
    else if eqIgnoreAsciiCase behavior ("end".toList) then some s
    else
      match parse_input behavior with
      | none => none
      | some (entry_type, tag, desc) => sessionLoop (recordEntry s ts entry_type tag desc) rest

/-- A whole session: open with timestamp `ts0`, feed the script to the loop,
close with timestamp `ts1` (the `open → (record)* → close` pipeline of
`main`). -/
def runSession (ts0 : List Char × List Char)
    (inputs : List (List Char × List Char × List Char))
    (ts1 : List Char × List Char) : Option SessionState :=
  (sessionLoop (openSession ts0) inputs).map (fun s => closeSession s ts1)

/-- Sum of all counts in a tag-count iteration sequence. -/
def sumCounts (m : List (List Char × Nat)) : Nat :=
  (m.map Prod.snd).sum

/-- chrono `Duration::num_minutes` on a duration of `secs` whole seconds:
whole minutes, truncated toward zero (Rust integer division). -/
def num_minutes (secs : Int) : Int := Int.tdiv secs 60

/-- chrono `Duration::num_seconds` followed by Rust `% 60` (truncated
remainder), as in the `Duration` report lines. -/
def durationRemSeconds (secs : Int) : Int := Int.tmod secs 60

/-- Decimal rendering of an `Int`, as Rust `{}` formatting of an `i64`. -/
def intChars (i : Int) : List Char := (toString i).toList

/-- Decimal rendering of a `Nat`, as Rust `{}` formatting of a `u32`. -/
def natChars (n : Nat) : List Char := (toString n).toList

/-- Rust `{:<10}` formatting: left-justify in a field of minimum width
`w`, padding with spaces on the right. -/
def padLeftJust (s : List Char) (w : Nat) : List Char :=
  s ++ List.replicate (w - s.length) ' '

/-- The entry line of the text report (main.rs lines 77..84):
`[Local: ..] [UTC: ..] [kind]\t[tag]\tdescription`. -/
def txt_log_line (log : LogEntry) : List Char :=
  "[Local: ".toList ++
    (log.local_time ++
      ("] [UTC: ".toList ++
        (log.utc_time ++
          ("] [".toList ++
            (rustTrim log.entry_type ++
              ("]\t[".toList ++
                (rustTrim log.tag ++
                  ("]\t".toList ++ log.description))))))))

/-- The data row of the tabular report (main.rs lines 126..134): the same five
fields, each wrapped in double quotes and separated by commas. -/
def csv_log_line (log : LogEntry) : List Char :=
  "\"".toList ++
    (log.local_time ++
      ("\",\"".toList ++
        (log.utc_time ++
          ("\",\"".toList ++
            (rustTrim log.entry_type ++
              ("\",\"".toList ++
                (rustTrim log.tag ++
                  ("\",\"".toList ++
                    (log.description ++ "\"".toList)))))))))

/-- One tag-summary line of the text report (main.rs line 94):
`{:<10}: {}` applied to tag and count. -/
def txt_tag_line (p : List Char × Nat) : List Char :=
  padLeftJust p.1 10 ++ ": ".toList ++ natChars p.2

/-- One tag-summary row of the tabular report (main.rs line 145): `tag,count`. -/
def csv_tag_line (p : List Char × Nat) : List Char :=
  p.1 ++ ",".toList ++ natChars p.2

/-- Embedding of `write_logs_txt` (main.rs lines 51..99) as the list of lines
written to the file.  A `writeln!` whose format string embeds `\n` produces
two lines.  `tag_counts` is the iteration sequence the `HashMap` yields,
which Rust leaves in arbitrary order. -/
def write_logs_txt (logs : List LogEntry)
    (test_name software_version test_objective test_operator
     participating_assets start_time end_time : List Char)
    (elapsed : Int) (tag_counts : List (List Char × Nat)) : List (List Char) :=
  ["--- Test Session Started ---".toList,
   "Test Name            : ".toList ++ test_name,
   "Software Version and Hash     : ".toList ++ software_version,
   "Test Objective       : ".toList ++ test_objective,
   "Test Operator        : ".toList ++ test_operator,
   "Participating Asset(s) : ".toList ++ participating_assets,
   "Start Time           : ".toList ++ start_time,
   "---------------------------------------".toList,
   [],
   "--- Log Entries ---".toList]
  ++ logs.map txt_log_line
  ++ ([[],
       "--- Test Session Ended ---".toList,
       "End Time             : ".toList ++ end_time,
       "Duration             : ".toList ++ intChars (num_minutes elapsed) ++
         " minutes ".toList ++ intChars (durationRemSeconds elapsed) ++ " seconds".toList,
       "---------------------------------------".toList,
       "Summary of Tags:".toList]
      ++ tag_counts.map txt_tag_line
      ++ ["---------------------------------------".toList])

/-- Embedding of `write_logs_csv` (main.rs lines 102..151) as the list of
lines written to the file. -/
def write_logs_csv (logs : List LogEntry)
    (test_name software_version test_objective test_operator
     participating_assets start_time end_time : List Char)
    (elapsed : Int) (tag_counts : List (List Char × Nat)) : List (List Char) :=
  ["Test Name,".toList ++ test_name,
   "Software Version,".toList ++ software_version,
   "Test Objective,".toList ++ test_objective,
   "Test Operator,".toList ++ test_operator,
   "Participating Asset(s),".toList ++ participating_assets,
   "Start Time,".toList ++ start_time,
   [],
   "Local Time,UTC Time,Entry Type,Tag,Description".toList]
  ++ logs.map csv_log_line
  ++ ([[],
       "Summary Information".toList,
       "End Time,".toList ++ end_time,
       "Duration,".toList ++ intChars (num_minutes elapsed) ++
         " minutes ".toList ++ intChars (durationRemSeconds elapsed) ++ " seconds".toList,
       [],
       "Tag,Count".toList]
      ++ tag_counts.map csv_tag_line)

/-- A sample recorded entry with concrete timestamps, used to instantiate the
renderer equivalence on concrete data. -/
def sampleEntry : LogEntry :=
  ⟨"2024-01-02 03:04:05".toList, "2024-01-02 08:04:05".toList,
   "OBSERVATION".toList, "it works".toList, "GOOD".toList⟩

/-- A concrete record call `(timestamps, kind, tag, description)` carrying
the `NOTE` tag, used to exercise the `u32` tag counter. -/
def noteCall : (List Char × List Char) × List Char × List Char × List Char :=
  (([], []), "OBSERVATION".toList, "NOTE".toList, [])

/-- Two concrete record calls, used to instantiate the session invariants. -/
def sampleCalls : List ((List Char × List Char) × List Char × List Char × List Char) :=
  [(("t1".toList, "u1".toList), "OBSERVATION".toList, "BUG".toList, "x".toList),
   (("t2".toList, "u2".toList), "OBSERVATION".toList, "GOOD".toList, "y".toList)]

/-- Drop a literal from the front of a line; `none` when the line does not
start with it (used to re-parse rendered entry lines). -/
def stripLit : List Char → List Char → Option (List Char)
  | [], l => some l
  | _ :: _, [] => none
  | a :: p, c :: l => if c = a then stripLit p l else none

/-- Split a line at the first occurrence of `c`, returning the part before
and the part after (the separator removed); `none` when `c` is absent. -/
def splitAtChar (c : Char) : List Char → Option (List Char × List Char)
  | [] => none
  | d :: l =>
    if d = c then some ([], l)
    else (splitAtChar c l).map fun p => (d :: p.1, p.2)

/-- Re-parse a text-report entry line by stripping the bracket/tab syntax,
recovering the five rendered fields. -/
def readTxtEntryLine (l : List Char) : Option (List Char × List Char × List Char × List Char × List Char) :=
  (stripLit ("[Local: ".toList) l).bind fun r1 =>
  (splitAtChar ']' r1).bind fun p1 =>
  (stripLit (" [UTC: ".toList) p1.2).bind fun r2 =>
  (splitAtChar ']' r2).bind fun p2 =>
  (stripLit (" [".toList) p2.2).bind fun r3 =>
  (splitAtChar ']' r3).bind fun p3 =>
  (stripLit ("\t[".toList) p3.2).bind fun r4 =>
  (splitAtChar ']' r4).bind fun p4 =>
  (stripLit ("\t".toList) p4.2).map fun desc =>
  (p1.1, p2.1, p3.1, p4.1, desc)

/-- Re-parse a tabular-report data row by stripping quotes and commas,
recovering the five rendered fields. -/
def readCsvRow (l : List Char) : Option (List Char × List Char × List Char × List Char × List Char) :=
  (stripLit ("\"".toList) l).bind fun r1 =>
  (splitAtChar '"' r1).bind fun p1 =>
  (stripLit (",\"".toList) p1.2).bind fun r2 =>
  (splitAtChar '"' r2).bind fun p2 =>
  (stripLit (",\"".toList) p2.2).bind fun r3 =>
  (splitAtChar '"' r3).bind fun p3 =>
  (stripLit (",\"".toList) p3.2).bind fun r4 =>
  (splitAtChar '"' r4).bind fun p4 =>
  (stripLit (",\"".toList) p4.2).bind fun r5 =>
  (splitAtChar '"' r5).bind fun p5 =>
  if p5.2 = [] then some (p1.1, p2.1, p3.1, p4.1, p5.1) else none

/-- The five fields a report row exposes for an entry: local time, utc time,
trimmed entry kind, trimmed tag, description. -/
def entryFields (log : LogEntry) : List Char × List Char × List Char × List Char × List Char :=
  (log.local_time, log.utc_time, rustTrim log.entry_type, rustTrim log.tag, log.description)

/-- Field hygiene needed to re-parse rendered rows: the bracket and quote
delimiters do not occur inside the rendered fields (timestamps and the closed
kind/tag sets satisfy this; descriptions must avoid `"` only for the tabular
row, which the source documents as a known limitation). -/
def cleanEntry (log : LogEntry) : Prop :=
  (']' ∉ log.local_time) ∧ (']' ∉ log.utc_time) ∧
  (']' ∉ rustTrim log.entry_type) ∧ (']' ∉ rustTrim log.tag) ∧
  ('"' ∉ log.local_time) ∧ ('"' ∉ log.utc_time) ∧
  ('"' ∉ rustTrim log.entry_type) ∧ ('"' ∉ rustTrim log.tag) ∧
  ('"' ∉ log.description)

instance (log : LogEntry) : Decidable (cleanEntry log) := by
  unfold cleanEntry
  infer_instance

/-! ### Generic list and character lemmas -/

theorem char_toNat_ofNat_valid (n : Nat) (h : n.isValidChar) : (Char.ofNat n).toNat = n := by
  have hlt : n < 1114112 := by
    rcases h with h | ⟨_, h⟩ <;> omega
  simp only [Char.ofNat, dif_pos h]
  simp only [Char.ofNatAux, Char.toNat, UInt32.toNat]
  change (BitVec.ofNatLt n _).toNat = n
  simp

theorem utf8Size_of_ascii (c : Char) (h : c.toNat < 128) : c.utf8Size = 1 := by
  simp only [Char.utf8Size]
  rw [if_pos]
  rw [UInt32.le_def, BitVec.le_def]
  simp only [UInt32.ofNatCore]
  change c.toNat ≤ 127
  omega

theorem dropWhile_cons_head_false {p : Char → Bool} {c : Char} {l : List Char}
    (hc : p c = false) : List.dropWhile p (c :: l) = c :: l := by
  simp [List.dropWhile_cons, hc]

theorem head_false_of_dropWhile {p : Char → Bool} :
    ∀ {l c b}, List.dropWhile p l = c :: b → p c = false := by
  intro l
  induction l with
  | nil => intro c b h; simp [List.dropWhile] at h
  | cons x t ih =>
    intro c b h
    rw [List.dropWhile_cons] at h
    by_cases hx : p x = true
    · rw [if_pos hx] at h; exact ih h
    · rw [if_neg hx] at h
      cases h
      simpa using hx

theorem rdropWhile_append_of_getLast {p : Char → Bool} {q : List Char} (d : List Char)
    (hlast : ∀ c, q.getLast? = some c → p c = false) :
    List.rdropWhile p (q ++ d) = q ++ List.rdropWhile p d := by
  show ((q ++ d).reverse.dropWhile p).reverse = q ++ (d.reverse.dropWhile p).reverse
  rw [List.reverse_append, List.dropWhile_append]
  by_cases hd : (List.dropWhile p d.reverse).isEmpty = true
  · rw [if_pos hd]
    rw [List.isEmpty_iff] at hd
    rw [hd]
    have hrev : List.dropWhile p q.reverse = q.reverse := by
      rcases hr : q.reverse with _ | ⟨c, t⟩
      · simp
      · have hcq : q.getLast? = some c := by
          rw [← List.head?_reverse, hr]; rfl
        exact dropWhile_cons_head_false (hlast c hcq)
    rw [hrev]
    simp
  · rw [if_neg hd]
    simp

theorem dropWhile_rdropWhile_comm (p : Char → Bool) (l : List Char) :
    List.dropWhile p (List.rdropWhile p l) = List.rdropWhile p (List.dropWhile p l) := by
  rcases hb : List.dropWhile p l with _ | ⟨c, b'⟩
  · have hall : ∀ x ∈ l, p x = true := List.dropWhile_eq_nil_iff.mp hb
    have hnil : List.rdropWhile p l = [] := List.rdropWhile_eq_nil_iff.mpr hall
    simp [hnil]
  · have hc : p c = false := head_false_of_dropWhile hb
    have hsplit : List.takeWhile p l ++ (c :: b') = l := by
      rw [← hb]; exact List.takeWhile_append_dropWhile p l
    have htake : List.dropWhile p (List.takeWhile p l) = [] :=
      List.dropWhile_eq_nil_iff.mpr (fun _ hx => List.mem_takeWhile_imp hx)
    have hne : List.rdropWhile p (c :: b') ≠ [] := by
      intro h
      have hmem := List.rdropWhile_eq_nil_iff.mp h c (by simp)
      rw [hc] at hmem
      exact Bool.false_ne_true hmem
    have hne' : ¬((c :: b').reverse.dropWhile p).isEmpty = true := by
      intro h
      apply hne
      rw [List.isEmpty_iff] at h
      show ((c :: b').reverse.dropWhile p).reverse = []
      rw [h]; rfl
    have hrd : List.rdropWhile p l = List.takeWhile p l ++ List.rdropWhile p (c :: b') := by
      conv_lhs => rw [← hsplit]
      show ((List.takeWhile p l ++ (c :: b')).reverse.dropWhile p).reverse = _
      rw [List.reverse_append, List.dropWhile_append, if_neg hne']
      rw [List.reverse_append, List.reverse_reverse]
      rfl
    rcases hrc : List.rdropWhile p (c :: b') with _ | ⟨c0, r⟩
    · exact absurd hrc hne
    · have ht := List.rdropWhile_prefix p (c :: b')
      rw [hrc] at ht
      rcases ht with ⟨t, ht⟩
      have hc0 : c0 = c := by
        have h2 : c0 :: (r ++ t) = c :: b' := by simpa using ht
        injection h2 with h3 _
      rw [hrd, hrc, List.dropWhile_append]
      rw [if_pos (by rw [htake]; rfl)]
      exact dropWhile_cons_head_false (hc0 ▸ hc)

/-! ### Trim lemmas -/

theorem rustTrim_idem (s : List Char) : rustTrim (rustTrim s) = rustTrim s := by
  show List.rdropWhile _ (List.dropWhile _ (List.rdropWhile _ (List.dropWhile _ s))) = _
  rw [dropWhile_rdropWhile_comm, List.dropWhile_idempotent, List.rdropWhile_idempotent]
  rfl

theorem rustTrim_rdropWhile (d : List Char) :
    rustTrim (List.rdropWhile isRustWhitespace d) = rustTrim d := by
  show List.rdropWhile _ (List.dropWhile _ (List.rdropWhile _ d)) = _
  rw [dropWhile_rdropWhile_comm, List.rdropWhile_idempotent]
  rfl

theorem rustTrim_append_of_ends {q : List Char} (d : List Char) (hq : q ≠ [])
    (hhead : ∀ c, q.head? = some c → isRustWhitespace c = false)
    (hlast : ∀ c, q.getLast? = some c → isRustWhitespace c = false) :
    rustTrim (q ++ d) = q ++ List.rdropWhile isRustWhitespace d := by
  rcases q with _ | ⟨c, q'⟩
  · exact absurd rfl hq
  · show List.rdropWhile _ (List.dropWhile _ (c :: (q' ++ d))) = _
    rw [dropWhile_cons_head_false (hhead c rfl)]
    exact rdropWhile_append_of_getLast d hlast

/-! ### Lowercase-prefix lemmas

The classifier checks `trimmed.to_lowercase().starts_with(p)` for an ASCII
pattern `p` and then byte-slices the *original* `trimmed` at `p.len()`.  The
lemmas here show that whenever the lowercased string starts with one of the
seven patterns, the original string starts with `p.len()` ASCII characters
(so the byte slice is on a boundary), because no character outside ASCII has
a lowercase mapping whose characters could complete such a match. -/

theorem rustToLowercase_append (a b : List Char) :
    rustToLowercase (a ++ b) = rustToLowercase a ++ rustToLowercase b := by
  induction a with
  | nil => rfl
  | cons c t ih => simp [rustToLowercase, ih]

theorem length_le_rustToLowercase (q : List Char) :
    q.length ≤ (rustToLowercase q).length := by
  induction q with
  | nil => simp
  | cons c t ih =>
    have hpos : 1 ≤ (rustCharLower c).length := by
      unfold rustCharLower
      split
      · simp
      · split
        · simp
        · split <;> simp
    simp only [rustToLowercase, List.length_append, List.length_cons]
    omega

theorem startsWithL_nil (l : List Char) : startsWithL l [] = true := by
  cases l <;> rfl

theorem startsWithL_append_self (p x : List Char) : startsWithL (p ++ x) p = true := by
  induction p with
  | nil => exact startsWithL_nil x
  | cons c t ih => simp [startsWithL, ih]

theorem startsWithL_self (p : List Char) : startsWithL p p = true := by
  induction p with
  | nil => rfl
  | cons c t ih => simp [startsWithL, ih]

theorem rustByteSlice_zero (s : List Char) : rustByteSlice s 0 = some s := by
  cases s <;> rfl

theorem isRustWhitespace_of_upper {c : Char} (h : isAsciiUppercase c = true) :
    isRustWhitespace c = false := by
  unfold isAsciiUppercase at h
  unfold isRustWhitespace
  simp only [Bool.and_eq_true, decide_eq_true_eq] at h
  simp only [Bool.or_eq_false_iff, decide_eq_false_iff_not, Bool.and_eq_false_iff]
  omega

theorem isRustWhitespace_asciiToLower {c : Char}
    (h : isRustWhitespace (asciiToLower c) = false) : isRustWhitespace c = false := by
  by_cases hup : isAsciiUppercase c = true
  · exact isRustWhitespace_of_upper hup
  · unfold asciiToLower at h
    rwa [if_neg hup] at h

theorem lower_startsWith_split :
    ∀ (q p : List Char), (∀ c ∈ p, c.toNat < 128) → (('k' : Char) ∉ p) →
      (combiningDot ∉ p) → (p.getLast? ≠ some 'i') →
      startsWithL (rustToLowercase q) p = true →
      ∃ q1 q2, q = q1 ++ q2 ∧ q1.length = p.length ∧ (∀ c ∈ q1, c.toNat < 128) ∧
        List.map asciiToLower q1 = p := by
  intro q
  induction q with
  | nil =>
    intro p _ _ _ _ hsw
    cases p with
    | nil => exact ⟨[], [], rfl, rfl, by simp, rfl⟩
    | cons a p' => simp [rustToLowercase, startsWithL] at hsw
  | cons c q' ih =>
    intro p hA hk hdot hlast hsw
    cases p with
    | nil => exact ⟨[], c :: q', rfl, rfl, by simp, rfl⟩
    | cons a p' =>
      have hsw' : startsWithL (rustCharLower c ++ rustToLowercase q') (a :: p') = true := hsw
      have hA' : ∀ x ∈ p', x.toNat < 128 := fun x hx => hA x (List.mem_cons_of_mem _ hx)
      have hk' : ('k' : Char) ∉ p' := fun hx => hk (List.mem_cons_of_mem _ hx)
      have hdot' : combiningDot ∉ p' := fun hx => hdot (List.mem_cons_of_mem _ hx)
      have hlast' : p'.getLast? ≠ some 'i' := by
        cases p' with
        | nil => simp
        | cons b p'' => rw [← List.getLast?_cons_cons (a := a)]; exact hlast
      by_cases hup : isAsciiUppercase c = true
      · have hlc : rustCharLower c = [Char.ofNat (c.toNat + 32)] := by
          unfold rustCharLower; rw [if_pos hup]
        rw [hlc] at hsw'
        simp [startsWithL] at hsw'
        obtain ⟨hxa, hrest⟩ := hsw'
        obtain ⟨q1', q2, heq, hlen, hascii, hmap⟩ := ih p' hA' hk' hdot' hlast' hrest
        refine ⟨c :: q1', q2, by rw [heq, List.cons_append], by simp [hlen], ?_, ?_⟩
        · intro x hx
          rcases List.mem_cons.mp hx with hx | hx
          · subst hx
            unfold isAsciiUppercase at hup
            simp only [Bool.and_eq_true, decide_eq_true_eq] at hup
            omega
          · exact hascii x hx
        · simp only [List.map_cons, hmap]
          congr 1
          unfold asciiToLower
          rw [if_pos hup, hxa]
      · by_cases hkel : c = kelvinSign
        · have hlc : rustCharLower c = ['k'] := by
            unfold rustCharLower; rw [if_neg (by simp [hup]), if_pos hkel]
          rw [hlc] at hsw'
          simp [startsWithL] at hsw'
          exact absurd (hsw'.1 ▸ List.mem_cons_self a p') hk
        · by_cases hidot : c = capitalIDot
          · have hlc : rustCharLower c = ['i', combiningDot] := by
              unfold rustCharLower
              rw [if_neg (by simp [hup]), if_neg hkel, if_pos hidot]
            rw [hlc] at hsw'
            cases p' with
            | nil =>
              simp [startsWithL] at hsw'
              exact absurd (by rw [← hsw']; rfl) hlast
            | cons b p'' =>
              simp [startsWithL] at hsw'
              obtain ⟨_, hbd, _⟩ := hsw'
              subst hbd
              exact absurd (List.mem_cons_of_mem a (List.mem_cons_self _ p'')) hdot
          · have hlc : rustCharLower c = [c] := by
              unfold rustCharLower
              rw [if_neg (by simp [hup]), if_neg hkel, if_neg hidot]
            rw [hlc] at hsw'
            simp [startsWithL] at hsw'
            obtain ⟨hxa, hrest⟩ := hsw'
            obtain ⟨q1', q2, heq, hlen, hascii, hmap⟩ := ih p' hA' hk' hdot' hlast' hrest
            refine ⟨c :: q1', q2, by rw [heq, List.cons_append], by simp [hlen], ?_, ?_⟩
            · intro x hx
              rcases List.mem_cons.mp hx with hx | hx
              · subst hx
                exact hxa ▸ hA a (List.mem_cons_self a p')
              · exact hascii x hx
            · simp only [List.map_cons, hmap]
              congr 1
              unfold asciiToLower
              rw [if_neg hup, hxa]

theorem lower_eq_split {q p : List Char}
    (hA : ∀ c ∈ p, c.toNat < 128) (hk : ('k' : Char) ∉ p) (hdot : combiningDot ∉ p)
    (hlast : p.getLast? ≠ some 'i') (h : rustToLowercase q = p) :
    (∀ c ∈ q, c.toNat < 128) ∧ List.map asciiToLower q = p ∧ q.length = p.length := by
  have hsw : startsWithL (rustToLowercase q) p = true := by
    rw [h]
    exact startsWithL_self p
  obtain ⟨q1, q2, heq, hlen, hascii, hmap⟩ := lower_startsWith_split q p hA hk hdot hlast hsw
  have hq2 : q2 = [] := by
    have h1 := length_le_rustToLowercase q
    rw [h, ← hlen] at h1
    rw [heq] at h1
    simp only [List.length_append] at h1
    have : q2.length = 0 := by omega
    exact List.length_eq_zero.mp this
  subst hq2
  rw [List.append_nil] at heq
  subst heq
  exact ⟨hascii, hmap, by rw [hlen]⟩

theorem rustByteSlice_ascii_append (q1 q2 : List Char) (h : ∀ c ∈ q1, c.toNat < 128) :
    rustByteSlice (q1 ++ q2) q1.length = some q2 := by
  induction q1 with
  | nil => exact rustByteSlice_zero q2
  | cons c q ih =>
    have hc : c.utf8Size = 1 := utf8Size_of_ascii c (h c (List.mem_cons_self c q))
    show rustByteSlice (c :: (q ++ q2)) (q.length + 1) = some q2
    rw [rustByteSlice, hc, if_pos (by omega)]
    simpa using ih (fun x hx => h x (List.mem_cons_of_mem _ hx))

theorem map_slice_isSome {t p : List Char} (f : List Char → List Char × List Char × List Char)
    (hA : ∀ c ∈ p, c.toNat < 128) (hk : ('k' : Char) ∉ p) (hdot : combiningDot ∉ p)
    (hlast : p.getLast? ≠ some 'i')
    (h : startsWithL (rustToLowercase t) p = true) :
    ((rustByteSlice t p.length).map f).isSome = true := by
  obtain ⟨q1, q2, heq, hlen, hascii, _⟩ := lower_startsWith_split t p hA hk hdot hlast h
  rw [heq, ← hlen, rustByteSlice_ascii_append q1 q2 hascii]
  rfl

/-- `parse_input` never returns `none`: the byte index used by each branch is
always a character boundary of the trimmed input. -/
theorem parse_input_isSome (s : List Char) : (parse_input s).isSome = true := by
  simp only [parse_input]
  split
  · next h =>
    exact map_slice_isSome (p := "bug:".toList) _ (by decide) (by decide) (by decide)
      (by decide) h
  · split
    · next h =>
      exact map_slice_isSome (p := "warn:".toList) _ (by decide) (by decide) (by decide)
        (by decide) h
    · split
      · next h =>
        exact map_slice_isSome (p := "good:".toList) _ (by decide) (by decide) (by decide)
          (by decide) h
      · split
        · next h =>
          exact map_slice_isSome (p := "pass:".toList) _ (by decide) (by decide) (by decide)
            (by decide) h
        · split
          · next h =>
            exact map_slice_isSome (p := "fail:".toList) _ (by decide) (by decide) (by decide)
              (by decide) h
          · split
            · next h =>
              exact map_slice_isSome (p := "reload:".toList) _ (by decide) (by decide)
                (by decide) (by decide) h
            · split
              · next h =>
                exact map_slice_isSome (p := "testcase:".toList) _ (by decide) (by decide)
                  (by decide) (by decide) h
              · rfl

theorem startsWithL_append_of_not (p2 : List Char) :
    ∀ (p1 x : List Char), startsWithL p1 p2 = false → p2.length ≤ p1.length →
      startsWithL (p1 ++ x) p2 = false := by
  induction p2 with
  | nil =>
    intro p1 x hne _
    rw [startsWithL_nil] at hne
    exact absurd hne (by simp)
  | cons a p2' ih =>
    intro p1 x hne hlen
    cases p1 with
    | nil => simp at hlen
    | cons c p1' =>
      rw [List.cons_append]
      show (c == a && startsWithL (p1' ++ x) p2') = false
      have hne' : (c == a && startsWithL p1' p2') = false := hne
      rcases Bool.and_eq_false_iff.mp hne' with h | h
      · rw [h]; rfl
      · rw [ih p1' x h (by simpa using Nat.le_of_succ_le_succ (by simpa using hlen))]
        simp

theorem lowered_prefix_line (p q d : List Char)
    (hA : ∀ c ∈ p, c.toNat < 128) (hk : ('k' : Char) ∉ p) (hdot : combiningDot ∉ p)
    (hlast : p.getLast? ≠ some 'i') (hpne : p ≠ [])
    (hwp : ∀ c ∈ p, isRustWhitespace c = false)
    (hlow : rustToLowercase q = p) :
    rustTrim (q ++ d) = q ++ List.rdropWhile isRustWhitespace d ∧
    rustByteSlice (rustTrim (q ++ d)) p.length =
      some (List.rdropWhile isRustWhitespace d) := by
  obtain ⟨hqa, hmap, hqlen⟩ := lower_eq_split hA hk hdot hlast hlow
  have hqne : q ≠ [] := by
    intro hnil
    apply hpne
    rw [← hmap, hnil]
    rfl
  have hhead : ∀ c, q.head? = some c → isRustWhitespace c = false := by
    intro c hc
    have hph : p.head? = some (asciiToLower c) := by
      rw [← hmap, List.head?_map, hc, Option.map_some']
    have hmem : asciiToLower c ∈ p := List.mem_of_mem_head? (Option.mem_def.mpr hph)
    exact isRustWhitespace_asciiToLower (hwp _ hmem)
  have hlastq : ∀ c, q.getLast? = some c → isRustWhitespace c = false := by
    intro c hc
    have hph : p.getLast? = some (asciiToLower c) := by
      rw [← hmap, List.getLast?_map, hc, Option.map_some']
    have hmem : asciiToLower c ∈ p := List.mem_of_mem_getLast? (Option.mem_def.mpr hph)
    exact isRustWhitespace_asciiToLower (hwp _ hmem)
  have htrim := rustTrim_append_of_ends d hqne hhead hlastq
  refine ⟨htrim, ?_⟩
  rw [htrim, ← hqlen]
  exact rustByteSlice_ascii_append q _ hqa

/-- Claim C1: for every row of the §4.1 table and every string `d`,
classifying a line whose prefix token case-insensitively equals the row's
prefix (i.e. lowercases to it) followed by `d` returns exactly the row's
entry kind and tag, and a description equal to `d` trimmed, preserving the
remainder's original casing (a whitespace-only remainder gives the empty
description, since its trim is empty). -/
theorem claim_c1_recognized_classification :
    ∀ row ∈ classificationTable, ∀ q d : List Char,
      rustToLowercase q = row.1 →
      parse_input (q ++ d) = some (row.2.1, row.2.2, rustTrim d) := by
  intro row hrow
  simp only [classificationTable, List.mem_cons, List.not_mem_nil, or_false] at hrow
  rcases hrow with h | h | h | h | h | h | h
  · subst h; intro q d hlow; dsimp only at hlow ⊢
    obtain ⟨htrim, hslice⟩ := lowered_prefix_line ("bug:".toList) q d (by decide) (by decide)
      (by decide) (by decide) (by decide) (by decide) hlow
    rw [htrim] at hslice
    have hs : rustByteSlice (q ++ List.rdropWhile isRustWhitespace d) 4 =
        some (List.rdropWhile isRustWhitespace d) := hslice
    simp only [parse_input]
    rw [htrim, rustToLowercase_append, hlow, startsWithL_append_self]
    simp [hs, rustTrim_rdropWhile]
  · subst h; intro q d hlow; dsimp only at hlow ⊢
    obtain ⟨htrim, hslice⟩ := lowered_prefix_line ("warn:".toList) q d (by decide) (by decide)
      (by decide) (by decide) (by decide) (by decide) hlow
    rw [htrim] at hslice
    have hs : rustByteSlice (q ++ List.rdropWhile isRustWhitespace d) 5 =
        some (List.rdropWhile isRustWhitespace d) := hslice
    simp only [parse_input]
    rw [htrim, rustToLowercase_append, hlow]
    rw [startsWithL_append_of_not ("bug:".toList) ("warn:".toList) _ (by decide) (by decide)]
    rw [startsWithL_append_self]
    simp [hs, rustTrim_rdropWhile]
  · subst h; intro q d hlow; dsimp only at hlow ⊢
    obtain ⟨htrim, hslice⟩ := lowered_prefix_line ("good:".toList) q d (by decide) (by decide)
      (by decide) (by decide) (by decide) (by decide) hlow
    rw [htrim] at hslice
    have hs : rustByteSlice (q ++ List.rdropWhile isRustWhitespace d) 5 =
        some (List.rdropWhile isRustWhitespace d) := hslice
    simp only [parse_input]
    rw [htrim, rustToLowercase_append, hlow]
    rw [startsWithL_append_of_not ("bug:".toList) ("good:".toList) _ (by decide) (by decide)]
    rw [startsWithL_append_of_not ("warn:".toList) ("good:".toList) _ (by decide) (by decide)]
    rw [startsWithL_append_self]
    simp [hs, rustTrim_rdropWhile]
  · subst h; intro q d hlow; dsimp only at hlow ⊢
    obtain ⟨htrim, hslice⟩ := lowered_prefix_line ("pass:".toList) q d (by decide) (by decide)
      (by decide) (by decide) (by decide) (by decide) hlow
    rw [htrim] at hslice
    have hs : rustByteSlice (q ++ List.rdropWhile isRustWhitespace d) 5 =
        some (List.rdropWhile isRustWhitespace d) := hslice
    simp only [parse_input]
    rw [htrim, rustToLowercase_append, hlow]
    rw [startsWithL_append_of_not ("bug:".toList) ("pass:".toList) _ (by decide) (by decide)]
    rw [startsWithL_append_of_not ("warn:".toList) ("pass:".toList) _ (by decide) (by decide)]
    rw [startsWithL_append_of_not ("good:".toList) ("pass:".toList) _ (by decide) (by decide)]
    rw [startsWithL_append_self]
    simp [hs, rustTrim_rdropWhile]
  · subst h; intro q d hlow; dsimp only at hlow ⊢
    obtain ⟨htrim, hslice⟩ := lowered_prefix_line ("fail:".toList) q d (by decide) (by decide)
      (by decide) (by decide) (by decide) (by decide) hlow
    rw [htrim] at hslice
    have hs : rustByteSlice (q ++ List.rdropWhile isRustWhitespace d) 5 =
        some (List.rdropWhile isRustWhitespace d) := hslice
    simp only [parse_input]
    rw [htrim, rustToLowercase_append, hlow]
    rw [startsWithL_append_of_not ("bug:".toList) ("fail:".toList) _ (by decide) (by decide)]
    rw [startsWithL_append_of_not ("warn:".toList) ("fail:".toList) _ (by decide) (by decide)]
    rw [startsWithL_append_of_not ("good:".toList) ("fail:".toList) _ (by decide) (by decide)]
    rw [startsWithL_append_of_not ("pass:".toList) ("fail:".toList) _ (by decide) (by decide)]
    rw [startsWithL_append_self]
    simp [hs, rustTrim_rdropWhile]
  · subst h; intro q d hlow; dsimp only at hlow ⊢
    obtain ⟨htrim, hslice⟩ := lowered_prefix_line ("reload:".toList) q d (by decide) (by decide)
      (by decide) (by decide) (by decide) (by decide) hlow
    rw [htrim] at hslice
    have hs : rustByteSlice (q ++ List.rdropWhile isRustWhitespace d) 7 =
        some (List.rdropWhile isRustWhitespace d) := hslice
    simp only [parse_input]
    rw [htrim, rustToLowercase_append, hlow]
    rw [startsWithL_append_of_not ("bug:".toList) ("reload:".toList) _ (by decide) (by decide)]
    rw [startsWithL_append_of_not ("warn:".toList) ("reload:".toList) _ (by decide) (by decide)]
    rw [startsWithL_append_of_not ("good:".toList) ("reload:".toList) _ (by decide) (by decide)]
    rw [startsWithL_append_of_not ("pass:".toList) ("reload:".toList) _ (by decide) (by decide)]
    rw [startsWithL_append_of_not ("fail:".toList) ("reload:".toList) _ (by decide) (by decide)]
    rw [startsWithL_append_self]
    simp [hs, rustTrim_rdropWhile]
  · subst h; intro q d hlow; dsimp only at hlow ⊢
    obtain ⟨htrim, hslice⟩ := lowered_prefix_line ("testcase:".toList) q d (by decide)
      (by decide) (by decide) (by decide) (by decide) (by decide) hlow
    rw [htrim] at hslice
    have hs : rustByteSlice (q ++ List.rdropWhile isRustWhitespace d) 9 =
        some (List.rdropWhile isRustWhitespace d) := hslice
    simp only [parse_input]
    rw [htrim, rustToLowercase_append, hlow]
    rw [startsWithL_append_of_not ("bug:".toList) ("testcase:".toList) _ (by decide) (by decide)]
    rw [startsWithL_append_of_not ("warn:".toList) ("testcase:".toList) _ (by decide) (by decide)]
    rw [startsWithL_append_of_not ("good:".toList) ("testcase:".toList) _ (by decide) (by decide)]
    rw [startsWithL_append_of_not ("pass:".toList) ("testcase:".toList) _ (by decide) (by decide)]
    rw [startsWithL_append_of_not ("fail:".toList) ("testcase:".toList) _ (by decide) (by decide)]
    rw [startsWithL_append_of_not ("reload:".toList) ("testcase:".toList) _ (by decide) (by decide)]
    rw [startsWithL_append_self]
    simp [hs, rustTrim_rdropWhile]

/-- Witness for C1 at the `bug:` row, an upper-case prefix token and a
description with surrounding whitespace. -/
theorem claim_c1_witness :
    (("bug:".toList, "OBSERVATION".toList, "BUG".toList) ∈ classificationTable) ∧
    rustToLowercase ("BUG:".toList) = "bug:".toList ∧
    parse_input ("BUG:".toList ++ " Crash on boot  ".toList)
      = some ("OBSERVATION".toList, "BUG".toList, rustTrim (" Crash on boot  ".toList)) :=
  ⟨by decide, by decide,
    claim_c1_recognized_classification ("bug:".toList, "OBSERVATION".toList, "BUG".toList)
      (by decide) ("BUG:".toList) (" Crash on boot  ".toList) (by decide)⟩

/-- Claim C6: an input whose trimmed, lowercased form starts with none of the
seven recognized prefixes classifies to `(OBSERVATION, NOTE, trimmed input)`,
and classification is total: it never fails on any string. -/
theorem claim_c6_unrecognized_is_note (s : List Char)
    (h : ∀ p ∈ recognizedPrefixes, startsWithL (rustToLowercase (rustTrim s)) p = false) :
    parse_input s = some ("OBSERVATION".toList, "NOTE".toList, rustTrim s) ∧
    ∀ t : List Char, (parse_input t).isSome = true := by
  refine ⟨?_, parse_input_isSome⟩
  have h1 := h ("bug:".toList) (by decide)
  have h2 := h ("warn:".toList) (by decide)
  have h3 := h ("good:".toList) (by decide)
  have h4 := h ("pass:".toList) (by decide)
  have h5 := h ("fail:".toList) (by decide)
  have h6 := h ("reload:".toList) (by decide)
  have h7 := h ("testcase:".toList) (by decide)
  simp only [parse_input]
  rw [h1, h2, h3, h4, h5, h6, h7]
  simp

/-- Witness for C6 on a plain note line. -/
theorem claim_c6_witness :
    (∀ p ∈ recognizedPrefixes,
      startsWithL (rustToLowercase (rustTrim ("hello World".toList))) p = false) ∧
    parse_input ("hello World".toList)
      = some ("OBSERVATION".toList, "NOTE".toList, rustTrim ("hello World".toList)) :=
  ⟨by decide, (claim_c6_unrecognized_is_note _ (by decide)).1⟩

/-- Claim C9: classification never panics.  Whenever the lowercased trimmed
line starts with a recognized prefix, the byte index used to slice the
original trimmed line falls on a character boundary, so `parse_input` (whose
`none` result models a Rust panic) is defined on every input. -/
theorem claim_c9_classifier_never_panics (s : List Char) : parse_input s ≠ none := by
  intro h
  have hs := parse_input_isSome s
  rw [h] at hs
  simp at hs

/-- Claim C10: classification is idempotent on the description field: every
returned description is already trimmed, and classifying a string and
classifying its trimmed form yield the same result. -/
theorem claim_c10_description_idempotent (s : List Char) :
    parse_input (rustTrim s) = parse_input s ∧
    ∀ k t dsc, parse_input s = some (k, t, dsc) → rustTrim dsc = dsc := by
  constructor
  · simp only [parse_input, rustTrim_idem]
  · have hbranch : ∀ (A B : List Char) (n : Nat) (k t dsc : List Char),
        Option.map (fun r => (A, B, rustTrim r)) (rustByteSlice (rustTrim s) n)
          = some (k, t, dsc) → rustTrim dsc = dsc := by
      intro A B n k t dsc h
      rcases hr : rustByteSlice (rustTrim s) n with _ | r
      · rw [hr] at h; simp at h
      · rw [hr] at h
        simp only [Option.map_some'] at h
        injection h with h'
        have hd : rustTrim r = dsc := congrArg (fun v => v.2.2) h'
        rw [← hd]
        exact rustTrim_idem r
    intro k t dsc h
    simp only [parse_input] at h
    split at h
    · exact hbranch _ _ 4 _ _ _ h
    · split at h
      · exact hbranch _ _ 5 _ _ _ h
      · split at h
        · exact hbranch _ _ 5 _ _ _ h
        · split at h
          · exact hbranch _ _ 5 _ _ _ h
          · split at h
            · exact hbranch _ _ 5 _ _ _ h
            · split at h
              · exact hbranch _ _ 7 _ _ _ h
              · split at h
                · exact hbranch _ _ 9 _ _ _ h
                · injection h with h'
                  have hd : rustTrim s = dsc := congrArg (fun v => v.2.2) h'
                  rw [← hd]
                  exact rustTrim_idem s

/-- Witness for C10: concrete instantiation of the inner implication. -/
theorem claim_c10_witness :
    parse_input (rustTrim ("  hi there  ".toList)) = parse_input ("  hi there  ".toList) ∧
    rustTrim ("hi there".toList) = "hi there".toList :=
  ⟨(claim_c10_description_idempotent ("  hi there  ".toList)).1,
   (claim_c10_description_idempotent ("  hi there  ".toList)).2
     ("OBSERVATION".toList) ("NOTE".toList) ("hi there".toList) (by decide)⟩

/-! ### Session-lifecycle lemmas -/

theorem sumCounts_bumpTag (m : List (List Char × Nat)) (t : List Char) :
    sumCounts m + 1 < 2 ^ 32 → sumCounts (bumpTag m t) = sumCounts m + 1 := by
  induction m with
  | nil =>
    intro _
    have h1 : (0 + 1) % 2 ^ 32 = 1 := by norm_num
    simp [bumpTag, sumCounts, h1]
  | cons p m' ih =>
    intro h
    rcases p with ⟨k, v⟩
    have hsum : sumCounts ((k, v) :: m') = v + sumCounts m' := by
      simp [sumCounts]
    unfold bumpTag
    by_cases hk : k = t
    · rw [if_pos hk]
      have hv : v + 1 < 2 ^ 32 := by
        rw [hsum] at h; omega
      simp [sumCounts, Nat.mod_eq_of_lt hv]
      omega
    · rw [if_neg hk]
      have hm' : sumCounts (bumpTag m' t) = sumCounts m' + 1 := by
        apply ih
        rw [hsum] at h; omega
      simp only [sumCounts, List.map_cons, List.sum_cons] at hm' ⊢
      omega

theorem foldl_record_logs
    (calls : List ((List Char × List Char) × List Char × List Char × List Char)) :
    ∀ s : SessionState,
      (calls.foldl (fun s c => recordEntry s c.1 c.2.1 c.2.2.1 c.2.2.2) s).logs.length
        = s.logs.length + calls.length := by
  induction calls with
  | nil => intro s; simp
  | cons c rest ih =>
    intro s
    rw [List.foldl_cons, ih (recordEntry s c.1 c.2.1 c.2.2.1 c.2.2.2)]
    simp [recordEntry]
    omega

theorem foldl_record_sum
    (calls : List ((List Char × List Char) × List Char × List Char × List Char)) :
    ∀ s : SessionState,
      sumCounts s.tag_counts + calls.length < 2 ^ 32 →
      sumCounts (calls.foldl (fun s c => recordEntry s c.1 c.2.1 c.2.2.1 c.2.2.2) s).tag_counts
        = sumCounts s.tag_counts + calls.length := by
  induction calls with
  | nil => intro s _; simp
  | cons c rest ih =>
    intro s h
    simp only [List.length_cons] at h ⊢
    have hb : sumCounts (recordEntry s c.1 c.2.1 c.2.2.1 c.2.2.2).tag_counts
        = sumCounts s.tag_counts + 1 := by
      simp only [recordEntry]
      exact sumCounts_bumpTag _ _ (by omega)
    rw [List.foldl_cons, ih (recordEntry s c.1 c.2.1 c.2.2.1 c.2.2.2) (by rw [hb]; omega), hb]
    omega

theorem fold_same_tag_replicate
    (c : (List Char × List Char) × List Char × List Char × List Char) :
    ∀ (k v : Nat) (L : List LogEntry), v < 2 ^ 32 →
      (List.foldl (fun s x => recordEntry s x.1 x.2.1 x.2.2.1 x.2.2.2)
          (⟨L, [(c.2.2.1, v)]⟩ : SessionState) (List.replicate k c)).tag_counts
        = [(c.2.2.1, (v + k) % 2 ^ 32)] := by
  intro k
  induction k with
  | zero =>
    intro v L hv
    have hmod : (v + 0) % 2 ^ 32 = v := by
      rw [Nat.add_zero]
      exact Nat.mod_eq_of_lt hv
    simp only [List.replicate_zero, List.foldl_nil, hmod]
  | succ k ih =>
    intro v L hv
    simp only [List.replicate_succ, List.foldl_cons]
    have hr : recordEntry (⟨L, [(c.2.2.1, v)]⟩ : SessionState) c.1 c.2.1 c.2.2.1 c.2.2.2
        = ⟨L ++ [⟨c.1.1, c.1.2, c.2.1, c.2.2.2, c.2.2.1⟩],
           [(c.2.2.1, (v + 1) % 2 ^ 32)]⟩ := by
      simp [recordEntry, bumpTag]
    rw [hr, ih ((v + 1) % 2 ^ 32) _ (Nat.mod_lt _ (by norm_num))]
    rw [Nat.mod_add_mod]
    have harith : v + 1 + k = v + (k + 1) := by omega
    rw [harith]

theorem fold_same_tag_from_empty
    (c : (List Char × List Char) × List Char × List Char × List Char)
    (k : Nat) (L : List LogEntry) (hk : 1 ≤ k) :
    (List.foldl (fun s x => recordEntry s x.1 x.2.1 x.2.2.1 x.2.2.2)
        (⟨L, []⟩ : SessionState) (List.replicate k c)).tag_counts
      = [(c.2.2.1, k % 2 ^ 32)] := by
  obtain ⟨k', rfl⟩ : ∃ k', k = k' + 1 := ⟨k - 1, by omega⟩
  simp only [List.replicate_succ, List.foldl_cons]
  have hr : recordEntry (⟨L, []⟩ : SessionState) c.1 c.2.1 c.2.2.1 c.2.2.2
      = ⟨L ++ [⟨c.1.1, c.1.2, c.2.1, c.2.2.2, c.2.2.1⟩], [(c.2.2.1, 1)]⟩ := by
    have h1 : (0 + 1) % 2 ^ 32 = 1 := by norm_num
    simp [recordEntry, bumpTag, h1]
  rw [hr, fold_same_tag_replicate c k' 1 _ (by norm_num)]
  have harith : 1 + k' = k' + 1 := by omega
  rw [harith]

/-- C3 fails as stated: after `2 ^ 32` record calls that all carry the `NOTE`
tag, the stored `u32` count has wrapped to `0`, so the tag-count total is `0`
rather than the number of record calls. -/
theorem claim_c3_counterexample :
    sumCounts (closeSession
        ((List.replicate (2 ^ 32) noteCall).foldl
          (fun s c => recordEntry s c.1 c.2.1 c.2.2.1 c.2.2.2)
          (openSession ([], []))) ([], [])).tag_counts
      ≠ (List.replicate (2 ^ 32) noteCall).length := by
  have hclose : ∀ (s : SessionState) (ts : List Char × List Char),
      (closeSession s ts).tag_counts = s.tag_counts := fun _ _ => rfl
  have hopen : openSession (([] : List Char), ([] : List Char))
      = ⟨[startEntry ([], [])], []⟩ := rfl
  rw [hclose, hopen]
  rw [fold_same_tag_from_empty noteCall (2 ^ 32) _ (by norm_num)]
  rw [List.length_replicate, Nat.mod_self]
  have hsum : sumCounts [(noteCall.2.2.1, 0)] = 0 := rfl
  rw [hsum]
  norm_num

/-- Claim C3 (amended for the `u32` wrap): a session made of `open`, then `n`
record calls, then `close` has an `entries` list of length `n + 2` for every
`n` (start marker, the records, end marker), and `tagCounts` summing to `n`
(lifecycle entries never increment a count) whenever `n < 2 ^ 32`; beyond
that the `u32` counters wrap, as `claim_c3_counterexample` shows. -/
theorem claim_c3_session_invariants (ts0 ts1 : List Char × List Char)
    (calls : List ((List Char × List Char) × List Char × List Char × List Char)) :
    (closeSession
        (calls.foldl (fun s c => recordEntry s c.1 c.2.1 c.2.2.1 c.2.2.2) (openSession ts0))
        ts1).logs.length = calls.length + 2 ∧
    (calls.length < 2 ^ 32 →
      sumCounts (closeSession
          (calls.foldl (fun s c => recordEntry s c.1 c.2.1 c.2.2.1 c.2.2.2) (openSession ts0))
          ts1).tag_counts = calls.length) := by
  constructor
  · have h1 := foldl_record_logs calls (openSession ts0)
    simp only [closeSession, List.length_append, h1]
    simp [openSession]
    omega
  · intro hn
    have h2 := foldl_record_sum calls (openSession ts0)
      (by simpa [openSession, sumCounts] using hn)
    simp only [closeSession]
    rw [h2]
    simp [openSession, sumCounts]

/-- Witness for C3's bounded tag-count conjunct at a concrete two-call
session. -/
theorem claim_c3_witness :
    sampleCalls.length < 2 ^ 32 ∧
    ((closeSession
        (sampleCalls.foldl (fun s c => recordEntry s c.1 c.2.1 c.2.2.1 c.2.2.2)
          (openSession ("t0".toList, "u0".toList)))
        ("t1".toList, "u1".toList)).logs.length = sampleCalls.length + 2 ∧
     sumCounts (closeSession
        (sampleCalls.foldl (fun s c => recordEntry s c.1 c.2.1 c.2.2.1 c.2.2.2)
          (openSession ("t0".toList, "u0".toList)))
        ("t1".toList, "u1".toList)).tag_counts = sampleCalls.length) :=
  ⟨by decide,
   ⟨(claim_c3_session_invariants ("t0".toList, "u0".toList) ("t1".toList, "u1".toList)
       sampleCalls).1,
    (claim_c3_session_invariants ("t0".toList, "u0".toList) ("t1".toList, "u1".toList)
       sampleCalls).2 (by decide)⟩⟩

/-- Claim C7: an input line that is empty after trimming is filtered before
classification (no entry, no tag-count change); a line whose trimmed form is
`end` up to ASCII case terminates the loop without a classified entry; and
the scenario [empty line, `warn: flaky sensor`, `end`] closes with exactly
three entries. -/
theorem claim_c7_empty_line_and_end_sentinel :
    (∀ (s : SessionState) (line : List Char) (ts : List Char × List Char)
        (rest : List (List Char × List Char × List Char)),
      rustTrim line = [] →
      sessionLoop s ((line, ts) :: rest) = sessionLoop s rest) ∧
    (∀ (s : SessionState) (line : List Char) (ts : List Char × List Char)
        (rest : List (List Char × List Char × List Char)),
      rustTrim line ≠ [] →
      eqIgnoreAsciiCase (rustTrim line) ("end".toList) = true →
      sessionLoop s ((line, ts) :: rest) = some s) ∧
    (runSession ("t0".toList, "u0".toList)
        [([], ("ta".toList, "ua".toList)),
         ("warn: flaky sensor".toList, ("tb".toList, "ub".toList)),
         ("end".toList, ("tc".toList, "uc".toList))]
        ("t1".toList, "u1".toList)).map (fun st => st.logs.length) = some 3 := by
  refine ⟨?_, ?_, by decide⟩
  · intro s line ts rest h
    simp [sessionLoop, h]
  · intro s line ts rest h1 h2
    have h2' : eqIgnoreAsciiCase (rustTrim line) ['e', 'n', 'd'] = true := h2
    simp [sessionLoop, h1, h2']

/-- Witness for C7's two conditional parts on concrete lines. -/
theorem claim_c7_witness :
    (rustTrim ("   ".toList) = [] ∧
      sessionLoop ⟨[], []⟩ [("   ".toList, ("t".toList, "u".toList))]
        = sessionLoop ⟨[], []⟩ []) ∧
    (rustTrim (" End ".toList) ≠ [] ∧
      eqIgnoreAsciiCase (rustTrim (" End ".toList)) ("end".toList) = true ∧
      sessionLoop ⟨[], []⟩ [(" End ".toList, ("t".toList, "u".toList))] = some ⟨[], []⟩) :=
  ⟨⟨by decide, claim_c7_empty_line_and_end_sentinel.1 _ _ _ _ (by decide)⟩,
   ⟨by decide, by decide,
    claim_c7_empty_line_and_end_sentinel.2.1 _ _ _ _ (by decide) (by decide)⟩⟩

/-- Claim C5: for a session whose close instant is not earlier than its open
instant, the reported duration decomposes the elapsed seconds as whole
minutes `m` (chrono `num_minutes`) and remainder seconds `s` (`num_seconds()
% 60`) with `elapsed = 60*m + s` and `s ∈ [0, 60)`.  These are exactly the
two values printed by the console report and both file renderers. -/
theorem claim_c5_duration_decomposition (startSec endSec : Int) (h : startSec ≤ endSec) :
    60 * num_minutes (endSec - startSec) + durationRemSeconds (endSec - startSec)
        = endSec - startSec ∧
    0 ≤ durationRemSeconds (endSec - startSec) ∧
    durationRemSeconds (endSec - startSec) < 60 := by
  have he : (0 : Int) ≤ endSec - startSec := by omega
  refine ⟨?_, Int.tmod_nonneg 60 he, Int.tmod_lt_of_pos _ (by norm_num)⟩
  exact Int.tdiv_add_tmod (endSec - startSec) 60

/-- Witness for C5 at a 2-minute-5-second session. -/
theorem claim_c5_witness :
    (0 : Int) ≤ 125 ∧
    (60 * num_minutes (125 - 0) + durationRemSeconds (125 - 0) = 125 - 0 ∧
     0 ≤ durationRemSeconds (125 - 0) ∧ durationRemSeconds (125 - 0) < 60) :=
  ⟨by decide, claim_c5_duration_decomposition 0 125 (by decide)⟩

/-! ### Renderer lemmas -/

theorem stripLit_append (p r : List Char) : stripLit p (p ++ r) = some r := by
  induction p with
  | nil => rfl
  | cons a p' ih => simp [stripLit, ih]

theorem splitAtChar_append (c : Char) (f r : List Char) (h : c ∉ f) :
    splitAtChar c (f ++ c :: r) = some (f, r) := by
  induction f with
  | nil => simp [splitAtChar]
  | cons d f' ih =>
    have hd : d ≠ c := fun hdc => h (hdc ▸ List.mem_cons_self d f')
    have h' : c ∉ f' := fun hm => h (List.mem_cons_of_mem _ hm)
    simp [splitAtChar, hd, ih h']

theorem readTxt_of_txt_log_line (e : LogEntry)
    (h1 : ']' ∉ e.local_time) (h2 : ']' ∉ e.utc_time)
    (h3 : ']' ∉ rustTrim e.entry_type) (h4 : ']' ∉ rustTrim e.tag) :
    readTxtEntryLine (txt_log_line e) = some (entryFields e) := by
  have hshape : txt_log_line e
      = "[Local: ".toList ++
        (e.local_time ++
          (']' ::
            (" [UTC: ".toList ++
              (e.utc_time ++
                (']' ::
                  (" [".toList ++
                    (rustTrim e.entry_type ++
                      (']' ::
                        ("\t[".toList ++
                          (rustTrim e.tag ++
                            (']' :: ("\t".toList ++ e.description)))))))))))) := rfl
  rw [hshape]
  simp only [readTxtEntryLine, stripLit_append, Option.some_bind]
  rw [splitAtChar_append ']' e.local_time _ h1]
  simp only [Option.some_bind, stripLit_append]
  rw [splitAtChar_append ']' e.utc_time _ h2]
  simp only [Option.some_bind, stripLit_append]
  rw [splitAtChar_append ']' (rustTrim e.entry_type) _ h3]
  simp only [Option.some_bind, stripLit_append]
  rw [splitAtChar_append ']' (rustTrim e.tag) _ h4]
  simp only [Option.some_bind, stripLit_append, Option.map_some']
  rfl

theorem readCsv_of_csv_log_line (e : LogEntry)
    (h1 : '"' ∉ e.local_time) (h2 : '"' ∉ e.utc_time)
    (h3 : '"' ∉ rustTrim e.entry_type) (h4 : '"' ∉ rustTrim e.tag)
    (h5 : '"' ∉ e.description) :
    readCsvRow (csv_log_line e) = some (entryFields e) := by
  have hshape : csv_log_line e
      = "\"".toList ++
        (e.local_time ++
          ('"' ::
            (",\"".toList ++
              (e.utc_time ++
                ('"' ::
                  (",\"".toList ++
                    (rustTrim e.entry_type ++
                      ('"' ::
                        (",\"".toList ++
                          (rustTrim e.tag ++
                            ('"' ::
                              (",\"".toList ++
                                (e.description ++
                                  ('"' :: ([] : List Char))))))))))))))) := rfl
  rw [hshape]
  simp only [readCsvRow, stripLit_append, Option.some_bind]
  rw [splitAtChar_append '"' e.local_time _ h1]
  simp only [Option.some_bind, stripLit_append]
  rw [splitAtChar_append '"' e.utc_time _ h2]
  simp only [Option.some_bind, stripLit_append]
  rw [splitAtChar_append '"' (rustTrim e.entry_type) _ h3]
  simp only [Option.some_bind, stripLit_append]
  rw [splitAtChar_append '"' (rustTrim e.tag) _ h4]
  simp only [Option.some_bind, stripLit_append]
  rw [splitAtChar_append '"' e.description _ h5]
  simp only [Option.some_bind]
  rfl

theorem txt_entry_block (logs : List LogEntry)
    (tn sv tob top pa st et : List Char) (elapsed : Int)
    (tc : List (List Char × Nat)) :
    ((write_logs_txt logs tn sv tob top pa st et elapsed tc).drop 10).take logs.length
      = logs.map txt_log_line :=
  List.take_left' (List.length_map _ _)

theorem csv_entry_block (logs : List LogEntry)
    (tn sv tob top pa st et : List Char) (elapsed : Int)
    (tc : List (List Char × Nat)) :
    ((write_logs_csv logs tn sv tob top pa st et elapsed tc).drop 8).take logs.length
      = logs.map csv_log_line :=
  List.take_left' (List.length_map _ _)

/-- Claim C4: for every closed session log whose rendered fields avoid the
report delimiters, the five-tuples recovered from the text report's entry
lines (by stripping the bracket/tab syntax) coincide, row for row and in
order, with those recovered from the tabular report's quoted data rows, and
both equal the per-entry `(local, utc, kind, tag, description)` fields. -/
theorem claim_c4_report_rows_agree (logs : List LogEntry)
    (tn sv tob top pa st et : List Char) (elapsed : Int)
    (tc : List (List Char × Nat))
    (h : ∀ e ∈ logs, cleanEntry e) :
    (((write_logs_txt logs tn sv tob top pa st et elapsed tc).drop 10).take
        logs.length).map readTxtEntryLine
      = (((write_logs_csv logs tn sv tob top pa st et elapsed tc).drop 8).take
        logs.length).map readCsvRow ∧
    (((write_logs_txt logs tn sv tob top pa st et elapsed tc).drop 10).take
        logs.length).map readTxtEntryLine
      = logs.map (fun e => some (entryFields e)) := by
  have htxt :
      (((write_logs_txt logs tn sv tob top pa st et elapsed tc).drop 10).take
          logs.length).map readTxtEntryLine
        = logs.map (fun e => some (entryFields e)) := by
    rw [txt_entry_block, List.map_map]
    apply List.map_congr_left
    intro e he
    obtain ⟨c1, c2, c3, c4, _, _, _, _, _⟩ := h e he
    exact readTxt_of_txt_log_line e c1 c2 c3 c4
  have hcsv :
      (((write_logs_csv logs tn sv tob top pa st et elapsed tc).drop 8).take
          logs.length).map readCsvRow
        = logs.map (fun e => some (entryFields e)) := by
    rw [csv_entry_block, List.map_map]
    apply List.map_congr_left
    intro e he
    obtain ⟨_, _, _, _, c5, c6, c7, c8, c9⟩ := h e he
    exact readCsv_of_csv_log_line e c5 c6 c7 c8 c9
  exact ⟨htxt.trans hcsv.symm, htxt⟩

/-- Witness for C4 on a one-entry session log with empty metadata. -/
theorem claim_c4_witness :
    (∀ e ∈ [sampleEntry], cleanEntry e) ∧
    ((((write_logs_txt [sampleEntry] [] [] [] [] [] [] [] 0 []).drop 10).take 1).map
        readTxtEntryLine
      = (((write_logs_csv [sampleEntry] [] [] [] [] [] [] [] 0 []).drop 8).take 1).map
        readCsvRow ∧
     (((write_logs_txt [sampleEntry] [] [] [] [] [] [] [] 0 []).drop 10).take 1).map
        readTxtEntryLine
      = [sampleEntry].map (fun e => some (entryFields e))) :=
  ⟨by decide,
   claim_c4_report_rows_agree [sampleEntry] [] [] [] [] [] [] [] 0 [] (by decide)⟩

/-- Claim C2 (refutation evidence): the tag-count summary rows of both
renderers are emitted in whatever order the `HashMap` iteration yields, so
two admissible iteration sequences of the same mapping `{BUG: 1, GOOD: 1}`
(they are permutations of each other) produce different reports; in
particular the order is neither deterministic nor sorted by tag key. -/
theorem claim_c2_summary_order_not_deterministic :
    List.Perm [("BUG".toList, 1), ("GOOD".toList, 1)]
      [("GOOD".toList, 1), ("BUG".toList, 1)] ∧
    write_logs_txt [] [] [] [] [] [] [] [] 0 [("BUG".toList, 1), ("GOOD".toList, 1)]
      ≠ write_logs_txt [] [] [] [] [] [] [] [] 0 [("GOOD".toList, 1), ("BUG".toList, 1)] ∧
    write_logs_csv [] [] [] [] [] [] [] [] 0 [("BUG".toList, 1), ("GOOD".toList, 1)]
      ≠ write_logs_csv [] [] [] [] [] [] [] [] 0 [("GOOD".toList, 1), ("BUG".toList, 1)] := by
  refine ⟨by decide, by decide, by decide⟩

/-- Claim C8 (refutation evidence for the alignment half, proof of the
tag-width half): in the text report's header block the first colon falls in
column 21 for four labels but in column 30 for `Software Version and Hash`
and column 23 for `Participating Asset(s)`, so the labels are not padded to
a common colon column; the tag-name field of the summary really is
left-justified in a minimum width of 10 characters, padded on the right. -/
theorem claim_c8_header_colon_columns :
    ((write_logs_txt [] [] [] [] [] [] [] [] 0 []).getD 1 []).indexOf ':' = 21 ∧
    ((write_logs_txt [] [] [] [] [] [] [] [] 0 []).getD 2 []).indexOf ':' = 30 ∧
    ((write_logs_txt [] [] [] [] [] [] [] [] 0 []).getD 3 []).indexOf ':' = 21 ∧
    ((write_logs_txt [] [] [] [] [] [] [] [] 0 []).getD 4 []).indexOf ':' = 21 ∧
    ((write_logs_txt [] [] [] [] [] [] [] [] 0 []).getD 5 []).indexOf ':' = 23 ∧
    ((write_logs_txt [] [] [] [] [] [] [] [] 0 []).getD 6 []).indexOf ':' = 21 ∧
    txt_tag_line ("BUG".toList, 2) = "BUG       : 2".toList ∧
    (∀ t : List Char, (padLeftJust t 10).length = max t.length 10) := by
  refine ⟨by decide, by decide, by decide, by decide, by decide, by decide, by decide, ?_⟩
  intro t
  simp [padLeftJust]
  omega

end TestLogger
